import Mathlib

/-!
Shallow embedding of the dependency-conflict resolution engine of
`py_packages_update.py` (class `PackageUpdater`).

Python strings are modelled as Lean `String`s; the Python string
operations used by the source (`str.split(sep)`, `str.split()`,
`str.lower()`, `str.replace`, the substring test `in`, `max` on two
strings) are modelled below over the code-point list `String.data`,
matching CPython semantics on the ASCII inputs the tool handles.
Python `None` / `str` / `list` results are modelled by `PyVal`;
a raised `IndexError` is modelled by an outer `Option` being `none`.
Python `set`s are modelled as duplicate-free lists (insertion order),
`dict`s as association lists, and the external `pip` subprocess calls
as oracle functions passed in as parameters.
-/

namespace PyUp

/-- Python `s.split(sep)` scanner over code points (for a non-empty
separator): scan left to right, cutting at each occurrence of `sep`.
The `fuel` argument only makes the recursion structural (hence
kernel-reducible); every step consumes at least one code point, so
with `fuel` equal to the length of the scanned list the fuel-exhausted
branch is never taken. -/
def pySplitAux (sep : List Char) : Nat → List Char → List Char → List (List Char)
  | _, [], acc => [acc]
  | 0, l, acc => [acc ++ l]
  | fuel + 1, c :: rest, acc =>
    if sep ≠ [] ∧ sep.isPrefixOf (c :: rest) then
      acc :: pySplitAux sep fuel ((c :: rest).drop sep.length) []
    else
      pySplitAux sep fuel rest (acc ++ [c])

/-- Python `s.split(sep)`: Python raises on an empty separator; the
source never passes one, and we return `[s]` in that unreachable case. -/
def pySplitOn (s sep : String) : List String :=
  if sep = "" then [s] else (pySplitAux sep.data s.data.length s.data []).map String.mk

/-- Helper for Python's no-argument `s.split()`: cut at every whitespace
code point. -/
def pySplitWsAux : List Char → List Char → List (List Char)
  | [], acc => [acc]
  | c :: rest, acc =>
    if c.isWhitespace then acc :: pySplitWsAux rest []
    else pySplitWsAux rest (acc ++ [c])

/-- Python `s.split()` (no argument): split on whitespace runs,
dropping empty pieces. -/
def pySplitWs (s : String) : List String :=
  ((pySplitWsAux s.data []).filter (· ≠ [])).map String.mk

/-- Substring scan used to model Python's `sub in s`. -/
def pyInfixAux (sub : List Char) : List Char → Bool
  | [] => decide (sub = [])
  | c :: rest => sub.isPrefixOf (c :: rest) || pyInfixAux sub rest

/-- Python's substring test `sub in s`. -/
def pyIn (sub s : String) : Bool :=
  decide (sub.data = []) || pyInfixAux sub.data s.data

/-- Python `s.lower()` (ASCII, as produced by `pip check`). -/
def pyLower (s : String) : String :=
  String.mk (s.data.map Char.toLower)

/-- The name normalisation used throughout the source:
`s.lower().replace("-","").replace("_","")`.  Replacing a single
character by the empty string is exactly a filter. -/
def normalize (s : String) : String :=
  String.mk (((s.data.map Char.toLower).filter (· ≠ '-')).filter (· ≠ '_'))

/-- Python `set.add` on a set modelled as a duplicate-free list. -/
def pyAdd (s : List String) (x : String) : List String :=
  if x ∈ s then s else s ++ [x]

/-- Python `list.remove(x)`: drop the first element equal to `x`. -/
def pyRemoveFirst : List String → String → List String
  | [], _ => []
  | a :: as, x => if a = x then as else a :: pyRemoveFirst as x

/-- Python's `for el in l: if p el: l.remove(el)` — iterating a list
while removing from it.  The internal cursor `i` advances each
iteration even though a removal shifts the remaining elements left
(so the element after a removed one is skipped, as in CPython).
`fuel` only makes the recursion structural: the cursor rises by one
per step while the list never lengthens, so `fuel = l.length` steps
always suffice and the fuel-exhausted branch is never taken. -/
def pyForRemoveGo (p : String → Bool) : Nat → List String → Nat → List String
  | 0, l, _ => l
  | fuel + 1, l, i =>
    if h : i < l.length then
      if p (l.get ⟨i, h⟩) then
        pyForRemoveGo p fuel (pyRemoveFirst l (l.get ⟨i, h⟩)) (i + 1)
      else pyForRemoveGo p fuel l (i + 1)
    else l

/-- Python's removal-while-iterating loop, started at cursor 0. -/
def pyForRemove (p : String → Bool) (l : List String) : List String :=
  pyForRemoveGo p l.length l 0

/-- Python `l[-1]` on a list known to be non-empty (the pieces of a
`split` are never empty, so the default is never taken). -/
def pyLast (l : List String) : String := l.getLastD ""

/-- Python's `a < b` on strings: code-point lexicographic comparison,
computed structurally over the code-point lists. -/
def pyStrLtAux : List Char → List Char → Bool
  | [], [] => false
  | [], _ :: _ => true
  | _ :: _, [] => false
  | a :: as, b :: bs =>
    if a < b then true else if b < a then false else pyStrLtAux as bs

/-- Python's `a < b` on strings. -/
def pyStrLt (a b : String) : Bool := pyStrLtAux a.data b.data

/-- Python `max(a, b)` on two strings: the second argument wins only
when it is strictly greater. -/
def pyStrMax (a b : String) : String := if pyStrLt a b then b else a

/-- Python `sorted` on a list of strings (stable, ascending). -/
def pySorted (l : List String) : List String :=
  l.insertionSort (· ≤ ·)

/-- A Python value returned by `get_conflict_version`: `None`, a
string, or a list of strings. -/
inductive PyVal where
  | vNone : PyVal
  | vStr : String → PyVal
  | vList : List String → PyVal
deriving DecidableEq

/-- First stage of `get_conflict_version` (source lines 517-524): lower
the line, split it on `"requirement " + line.split(" ")[-2]`, and run
the marker-removal loop (any piece containing `python_version` or
`sys_platform` is removed).  `none` models the `IndexError` raised by
`[-2]` when the line has fewer than two space-separated tokens. -/
def gcvSplit (line : String) : Option (List String) :=
  let cl := pyLower line
  let toks := pySplitOn cl " "
  if 2 ≤ toks.length then
    let dep := toks.getD (toks.length - 2) ""
    let split0 := pySplitOn cl ("requirement " ++ dep)
    some (if split0.length > 0 then
      pyForRemove
        (fun el => pyIn "python_version" el || pyIn "sys_platform" el)
        split0
    else split0)
  else none

/-- Second stage (source line 530-531): when more than one piece
survives, the clause piece `split[1]` is split on commas; otherwise the
piece list itself is used as the token list. -/
def gcvTokens (split1 : List String) : List String :=
  if split1.length > 1 then pySplitOn (split1.getD 1 "") "," else split1

/-- Third stage (source lines 532-538): keep tokens containing `=`,
then run the removal loop dropping tokens containing `!=`. -/
def gcvEqTokens (split2 : List String) : List String :=
  let version := split2.filter (fun el => pyIn "=" el)
  if version.length > 0 then pyForRemove (fun el => pyIn "!=" el) version
  else version

/-- The part of `get_conflict_version` after the `IndexError`-prone
prefix (source lines 526-564), as a function of the marker-filtered
piece list. -/
def gcvCore (split1 : List String) : PyVal :=
  if split1.length = 0 then .vNone
  else
    let split2 := gcvTokens split1
    let version := gcvEqTokens split2
    if version.length = 0 then
      let fb := split2.filter (fun el => pyIn ">" el || pyIn "<" el)
      if fb.length > 0 then .vStr (fb.getD 0 "")
      else .vList fb
    else if version.length = 1 then
      let parts := pySplitOn (version.getD 0 "") "="
      if parts.length > 0 then .vStr (pyLast parts)
      else .vList parts
    else if version.length = 2 then
      let p0 := pySplitOn (version.getD 0 "") "="
      let version_0 := if p0.length > 0 then some (pyLast p0) else none
      let p1 := pySplitOn (version.getD 1 "") "="
      let version_1 := if p1.length > 0 then some (pyLast p1) else none
      match version_0, version_1 with
      | some v0, some v1 => .vStr (pyStrMax v0 v1)
      | _, _ => .vNone
    else .vList version

/-- `PackageUpdater.get_conflict_version` (source lines 512-564).
The outer `Option` is `none` when the Python code would raise
`IndexError`; otherwise the returned `PyVal` is the Python value. -/
def get_conflict_version (conflict_line : String) : Option PyVal :=
  (gcvSplit conflict_line).map gcvCore

/-- The per-line test of the blacklist filter in
`check_dependency_conflicts` (source lines 244-247): the line's first
whitespace token is normalised and a blacklisted name matches when its
normalised form occurs as a substring of it. -/
def lineMatchesBlacklist (blacklist : List String) (line : String) : Bool :=
  let element := normalize ((pySplitWs line).getD 0 "")
  blacklist.any (fun pkg => pyIn (normalize pkg) element)

/-- The removal loop of the blacklist filter (source lines 243-254):
iterate over the original `conflict_lines`, removing each matching line
from the working copy `filtered` (Python `list.remove`, first equal
occurrence). -/
def cdcFilterLoop (blacklist : List String) : List String → List String → List String
  | [], filtered => filtered
  | line :: rest, filtered =>
    if lineMatchesBlacklist blacklist line then
      cdcFilterLoop blacklist rest (pyRemoveFirst filtered line)
    else
      cdcFilterLoop blacklist rest filtered

/-- The blacklist filter of `check_dependency_conflicts` (source lines
240-254): applied only when the blacklist is non-empty. -/
def filterConflictLines (blacklist : List String) (conflict_lines : List String) :
    List String :=
  if blacklist.length > 0 then cdcFilterLoop blacklist conflict_lines conflict_lines
  else conflict_lines

/-- The repeat-offender loop of `check_dependency_conflicts` (source
lines 270-275): for each conflicting package, a package already in
`conflict_dependency_memory` joins `new_blacklist`, otherwise it is
added to the memory.  Returns (memory after the round, `new_blacklist`). -/
def observeAux (memory : List String) (pkgs : List String)
    (new_blacklist : List String) : List String × List String :=
  match pkgs with
  | [] => (memory, new_blacklist)
  | p :: ps =>
    if p ∈ memory then observeAux memory ps (pyAdd new_blacklist p)
    else observeAux (pyAdd memory p) ps new_blacklist

/-- One round of the repeat-offender memory, starting from an empty
`new_blacklist` set. -/
def observe (memory : List String) (pkgs : List String) : List String × List String :=
  observeAux memory pkgs []

/-- The candidate computation of `check_blacklist` (source lines
468-478): an outdated package is a candidate when its normalised name
equals one of the normalised non-first whitespace tokens of some
conflict line; the candidate set is then sorted.  Note no
`conflict_dependency_memory` is consulted. -/
def check_blacklist_candidates (outdated_packages : List String)
    (conflict_lines : List String) : List String :=
  pySorted (outdated_packages.foldl (fun cands package =>
    conflict_lines.foldl (fun cands line =>
      let elements := ((pySplitWs line).drop 1).map normalize
      if normalize package ∈ elements then pyAdd cands package else cands)
      cands) [])

/-- `PackageUpdater.filter_outdated_list` (source lines 434-456):
membership in `filter_packages` is tested with the raw, unnormalised
name.  Python mutates `outdated_packages` and `skipped_packages` in
place; we return the pair (outdated after removal, skipped after
additions). -/
def filter_outdated_list (outdated_packages : List String)
    (skipped_packages : List String) (filter_packages : List String) :
    List String × List String :=
  if filter_packages.length > 0 then
    let remove_packages := outdated_packages.filter (fun p => p ∈ filter_packages)
    (outdated_packages.filter (fun p => p ∉ filter_packages),
     remove_packages.foldl pyAdd skipped_packages)
  else (outdated_packages, skipped_packages)

/-- One conflict-history entry `[package, dependency, version]`
(source line 292); the version component is whatever
`get_conflict_version` produced. -/
abbrev HistEntry := String × String × PyVal

/-- The history-update loop of `check_dependency_conflicts` (source
lines 296-298): append each new entry unless an equal entry is already
stored. -/
def update_conflict_history (conflict_history : List HistEntry)
    (new_entries : List HistEntry) : List HistEntry :=
  new_entries.foldl (fun h e => if e ∈ h then h else h ++ [e]) conflict_history

/-- The state of the JSON config file as `_load_config` observes it:
absent, unreadable/malformed JSON, or valid JSON in which either key
may be missing. -/
inductive ConfigState where
  | absent : ConfigState
  | malformed : ConfigState
  | valid (blacklist : Option (List String))
      (specific_versions : Option (List (String × String))) : ConfigState
deriving DecidableEq

/-- `PackageUpdater._load_config` (source lines 85-129), modelled over
`ConfigState`: returns ((blacklist, specific_versions), resulting file
state).  An absent file is rewritten with the default config; malformed
JSON (or an IO error) yields `([], {})`; missing keys fall back to the
same defaults via `config.get`. -/
def _load_config : ConfigState → (List String × List (String × String)) × ConfigState
  | .absent => (([], []), .valid (some []) (some []))
  | .malformed => (([], []), .malformed)
  | .valid bl sv => ((bl.getD [], sv.getD []), .valid bl sv)

/-- Python `dict` lookup `package in specific_versions` /
`specific_versions[package]` over an association list. -/
def pyDictGet (d : List (String × String)) (k : String) : Option String :=
  (d.find? (fun kv => kv.1 == k)).map (·.2)

/-- The per-package loop of `PackageUpdater.update_packages` (source
lines 347-384), over the already-sorted package list.  `installed`
models `get_installed_version` and `pip` models the
`pip install --upgrade <spec>` call, returning (returncode == 0,
stderr).  Result: (successful_updates, failed_updates, skipped_updates),
each in processing order. -/
def updateLoop (specific_versions : List (String × String))
    (installed : String → Option String) (pip : String → Bool × String) :
    List String → List String × List (String × String) × List String
  | [] => ([], [], [])
  | package :: rest =>
    let current_version := installed package
    match pyDictGet specific_versions package with
    | some target_version =>
      if current_version = some target_version then
        let r := updateLoop specific_versions installed pip rest
        (package :: r.1, r.2.1, package :: r.2.2)
      else
        let res := pip (package ++ "==" ++ target_version)
        let r := updateLoop specific_versions installed pip rest
        if res.1 then (package :: r.1, r.2.1, r.2.2)
        else (r.1, (package, res.2) :: r.2.1, r.2.2)
    | none =>
      let res := pip package
      let r := updateLoop specific_versions installed pip rest
      if res.1 then (package :: r.1, r.2.1, r.2.2)
      else (r.1, (package, res.2) :: r.2.1, r.2.2)

/-- `PackageUpdater.update_packages` (source lines 329-388): iterate
over `sorted(packages)`. -/
def update_packages (packages : List String)
    (specific_versions : List (String × String))
    (installed : String → Option String) (pip : String → Bool × String) :
    List String × List (String × String) × List String :=
  updateLoop specific_versions installed pip (pySorted packages)

/-! ### Basic lemmas about the string primitives -/

theorem pySplitAux_ne_nil (sep : List Char) :
    ∀ (fuel : Nat) (l acc : List Char), pySplitAux sep fuel l acc ≠ [] := by
  intro fuel
  induction fuel with
  | zero =>
    intro l acc
    cases l <;> simp [pySplitAux]
  | succ n ih =>
    intro l acc
    cases l with
    | nil => simp [pySplitAux]
    | cons c rest =>
      rw [pySplitAux]
      split
      · simp
      · exact ih rest (acc ++ [c])

theorem pySplitOn_ne_nil (s sep : String) : pySplitOn s sep ≠ [] := by
  unfold pySplitOn
  split
  · simp
  · simpa using pySplitAux_ne_nil sep.data s.data.length s.data []

theorem pySplitOn_length_pos (s sep : String) : 0 < (pySplitOn s sep).length :=
  List.length_pos.mpr (pySplitOn_ne_nil s sep)

theorem pyStrLtAux_iff : ∀ (l1 l2 : List Char), pyStrLtAux l1 l2 = true ↔ l1 < l2 := by
  intro l1
  induction l1 with
  | nil =>
    intro l2
    cases l2 with
    | nil =>
      simp only [pyStrLtAux]
      constructor
      · intro h; exact absurd h (by simp)
      · intro h; cases h
    | cons b bs =>
      simp only [pyStrLtAux]
      exact iff_of_true (by simp) List.Lex.nil
  | cons a as ih =>
    intro l2
    cases l2 with
    | nil =>
      simp only [pyStrLtAux]
      constructor
      · intro h; exact absurd h (by simp)
      · intro h; cases h
    | cons b bs =>
      simp only [pyStrLtAux]
      by_cases hab : a < b
      · rw [if_pos hab]
        exact iff_of_true (by simp) (List.Lex.rel hab)
      · by_cases hba : b < a
        · rw [if_neg hab, if_pos hba]
          constructor
          · intro h; exact absurd h (by simp)
          · intro h
            cases h with
            | rel h' => exact absurd h' hab
            | cons h' => exact absurd hba (lt_irrefl a)
        · have heq : a = b := le_antisymm (not_lt.mp hba) (not_lt.mp hab)
          subst heq
          rw [if_neg hab, if_neg hba, ih bs]
          constructor
          · intro h; exact List.Lex.cons h
          · intro h
            cases h with
            | rel h' => exact absurd h' hab
            | cons h' => exact h'

theorem pyStrLt_iff (a b : String) : pyStrLt a b = true ↔ a < b := by
  rw [String.lt_iff_toList_lt]
  exact pyStrLtAux_iff a.data b.data

theorem pyStrMax_eq_max (a b : String) : pyStrMax a b = max a b := by
  unfold pyStrMax
  by_cases h : a < b
  · rw [if_pos ((pyStrLt_iff a b).mpr h), max_eq_right h.le]
  · rw [if_neg (fun hb => h ((pyStrLt_iff a b).mp hb)),
      max_eq_left (not_lt.mp h)]

theorem gcvCore_two_eq_tokens (s : List String) (t0 t1 : String)
    (h2 : s ≠ []) (h3 : gcvEqTokens (gcvTokens s) = [t0, t1]) :
    gcvCore s =
      .vStr (max (pyLast (pySplitOn t0 "=")) (pyLast (pySplitOn t1 "="))) := by
  unfold gcvCore
  rw [if_neg (by simpa [List.length_eq_zero] using h2)]
  simp only [h3, List.length_cons, List.length_nil]
  rw [if_neg (by norm_num), if_neg (by norm_num)]
  rw [if_pos trivial]
  simp only [List.getD_cons_zero, List.getD_cons_succ]
  rw [if_pos (pySplitOn_length_pos t0 "="), if_pos (pySplitOn_length_pos t1 "=")]
  dsimp only
  rw [pyStrMax_eq_max]

/-- C5: for every conflict line whose requirement clause yields exactly
two surviving equality-style tokens, `get_conflict_version` resolves
each token to the substring after its final `=` (the last piece of the
`=`-split) and returns the lexicographic (string) maximum of the two
trailing values.  (The "either side fails to resolve" branch of the
source, returning `None`, is unreachable: a split is never empty, so
the `max` case always applies.) -/
theorem gcv_two_eq_tokens_max (line : String) (s : List String) (t0 t1 : String)
    (h1 : gcvSplit line = some s) (h2 : s ≠ [])
    (h3 : gcvEqTokens (gcvTokens s) = [t0, t1]) :
    get_conflict_version line =
      some (.vStr (max (pyLast (pySplitOn t0 "=")) (pyLast (pySplitOn t1 "=")))) := by
  unfold get_conflict_version
  rw [h1, Option.map_some', gcvCore_two_eq_tokens s t0 t1 h2 h3]

/-- Witness for C5: on the two-bound line
`"a 1.0 has requirement b>=1.0,<=3.0, but you have b 0.5."` the
extractor returns the string maximum `"3.0"` of `"1.0"` and `"3.0"`. -/
theorem gcv_two_eq_tokens_max_witness :
    get_conflict_version "a 1.0 has requirement b>=1.0,<=3.0, but you have b 0.5." =
      some (.vStr "3.0") := by
  have h := gcv_two_eq_tokens_max
    "a 1.0 has requirement b>=1.0,<=3.0, but you have b 0.5."
    ["a 1.0 has ", ">=1.0,<=3.0, but you have b 0.5."]
    ">=1.0" "<=3.0" (by decide) (by decide) (by decide)
  have hmax : max (pyLast (pySplitOn ">=1.0" "=")) (pyLast (pySplitOn "<=3.0" "=")) = "3.0" := by
    rw [← pyStrMax_eq_max]
    decide
  rw [h, hmax]

/-! ### C1: conflict lines whose clause carries an environment marker -/

/-- The ASCII single-quote character, built explicitly so the test
line below matches the pip output verbatim. -/
def singleQuote : String := String.mk [Char.ofNat 39]

/-- The conflict line of C1:
`a 1.0 has requirement b>=2.0,!=2.5 and python_version<'3'; but you have b 1.0.` -/
def c1_conflict_line : String :=
  "a 1.0 has requirement b>=2.0,!=2.5 and python_version<" ++ singleQuote ++
    "3" ++ singleQuote ++ "; but you have b 1.0."

/-- Counterexample to C1: on the marker-carrying conflict line the
extractor does not return `"2.0"` (it returns the empty list: the
whole clause piece, which contains `python_version`, is discarded). -/
theorem gcv_marker_line_not_two_point_zero :
    get_conflict_version c1_conflict_line ≠ some (.vStr "2.0") := by decide

/-- C1 (amended): whenever the requirement-clause split leaves a single
surviving piece with no `=`, `>` or `<` in it — as happens for the C1
line, where the entire clause piece contains the environment marker and
is removed whole — `get_conflict_version` returns the empty list
(treated by the caller as no actionable constraint), not `"2.0"`. -/
theorem gcv_marker_clause_empty_list (line : String) (s : String)
    (h1 : gcvSplit line = some [s])
    (he : pyIn "=" s = false) (hg : pyIn ">" s = false)
    (hl : pyIn "<" s = false) :
    get_conflict_version line = some (.vList []) := by
  have htok : gcvTokens [s] = [s] := by
    unfold gcvTokens
    rw [if_neg (by norm_num)]
  have heq : gcvEqTokens [s] = [] := by
    unfold gcvEqTokens
    simp [List.filter_cons, he]
  unfold get_conflict_version
  rw [h1, Option.map_some']
  unfold gcvCore
  rw [if_neg (by simp)]
  simp only [htok, heq, List.length_nil, List.filter_cons, List.filter_nil,
    hg, hl, Bool.or_self]
  simp

/-- Witness for C1 (amended) at the concrete C1 line. -/
theorem gcv_marker_clause_empty_list_witness :
    get_conflict_version c1_conflict_line = some (.vList []) :=
  gcv_marker_clause_empty_list c1_conflict_line "a 1.0 has "
    (by decide) (by decide) (by decide) (by decide)

/-! ### C3: the shape of the extractor result -/

/-- Counterexample to C3: a line with four surviving equality tokens
makes the extractor return the surviving token list itself — a Python
list, not a version string and not `None`. -/
theorem gcv_returns_list_counterexample :
    get_conflict_version
        "c 2.0 has requirement d>=1.0,<=3.0,==2.0,==2.2, but you have d 0.5." =
      some (.vList [">=1.0", "<=3.0", "==2.0", "==2.2"]) := by decide

/-- C3 (amended): `get_conflict_version` can also return Python lists:
when more than two equality-style tokens survive filtering, it falls
through all branches and returns the surviving token list (not `None`),
and on a line without a requirement clause it returns the empty list
(not `None`).  Strings and `None` are the only other possible results. -/
theorem gcv_more_than_two_tokens_list :
    (∀ (line : String) (s ts : List String),
      gcvSplit line = some s → s ≠ [] →
      gcvEqTokens (gcvTokens s) = ts → 2 < ts.length →
      get_conflict_version line = some (.vList ts)) ∧
    get_conflict_version "foo 1.0 is broken" = some (.vList []) := by
  constructor
  · intro line s ts h1 h2 h3 h4
    unfold get_conflict_version
    rw [h1, Option.map_some']
    unfold gcvCore
    rw [if_neg (by simpa [List.length_eq_zero] using h2)]
    simp only [h3]
    rw [if_neg (by omega), if_neg (by omega), if_neg (by omega)]
  · decide

/-- Witness for C3 (amended): a line with three surviving equality
tokens yields the three-token list. -/
theorem gcv_more_than_two_tokens_list_witness :
    get_conflict_version
        "a 1.0 has requirement b>=1.0,<=3.0,==2.0, but you have b 0.5." =
      some (.vList [">=1.0", "<=3.0", "==2.0"]) :=
  gcv_more_than_two_tokens_list.1 _
    ["a 1.0 has ", ">=1.0,<=3.0,==2.0, but you have b 0.5."]
    [">=1.0", "<=3.0", "==2.0"] (by decide) (by decide) (by decide) (by decide)

/-! ### C7, C4: the conflict-report blacklist filter -/

theorem pyRemoveFirst_append_of_not_mem (s t : List String) (a : String)
    (h : ∀ x ∈ s, x ≠ a) : pyRemoveFirst (s ++ a :: t) a = s ++ t := by
  induction s with
  | nil => simp [pyRemoveFirst]
  | cons b bs ih =>
    simp only [List.cons_append, pyRemoveFirst]
    rw [if_neg (h b (List.mem_cons_self b bs))]
    exact congrArg _ (ih (fun x hx => h x (List.mem_cons_of_mem b hx)))

theorem any_normalize_map (bl : List String) (e : String) :
    (bl.any fun pkg => pyIn (normalize pkg) e) =
      ((bl.map normalize).any fun np => pyIn np e) := by
  induction bl with
  | nil => rfl
  | cons b bs ih => simp [ih]

theorem cdcFilterLoop_eq_filter (bl : List String) :
    ∀ (rest survivors : List String),
      (∀ x ∈ survivors, lineMatchesBlacklist bl x = false) →
      cdcFilterLoop bl rest (survivors ++ rest) =
        survivors ++ rest.filter (fun l => !lineMatchesBlacklist bl l) := by
  intro rest
  induction rest with
  | nil =>
    intro survivors h
    simp [cdcFilterLoop]
  | cons line rest ih =>
    intro survivors h
    by_cases hm : lineMatchesBlacklist bl line = true
    · simp only [cdcFilterLoop, hm, if_true]
      have hne : ∀ x ∈ survivors, x ≠ line := by
        intro x hx heq
        rw [heq] at hx
        rw [h line hx] at hm
        exact Bool.false_ne_true hm
      rw [pyRemoveFirst_append_of_not_mem survivors rest line hne]
      rw [ih survivors h]
      simp [List.filter_cons, hm]
    · simp only [cdcFilterLoop, hm, if_false]
      have hassoc : survivors ++ line :: rest = (survivors ++ [line]) ++ rest := by
        simp
      rw [hassoc]
      rw [ih (survivors ++ [line]) ?hsv]
      case hsv =>
        intro x hx
        rcases List.mem_append.mp hx with h' | h'
        · exact h x h'
        · rw [List.mem_singleton.mp h']
          exact Bool.not_eq_true _ ▸ (Bool.of_not_eq_true hm)
      simp [List.filter_cons, hm]

theorem filterConflictLines_eq_filter (bl lines : List String) (hbl : bl ≠ []) :
    filterConflictLines bl lines =
      lines.filter (fun l => !lineMatchesBlacklist bl l) := by
  unfold filterConflictLines
  rw [if_pos (List.length_pos.mpr hbl)]
  simpa using cdcFilterLoop_eq_filter bl lines [] (by simp)

/-- C7: the conflict-report blacklist filter of
`check_dependency_conflicts` is idempotent — running it twice with the
same blacklist yields the same surviving lines as running it once. -/
theorem filterConflictLines_idempotent (bl lines : List String) :
    filterConflictLines bl (filterConflictLines bl lines) =
      filterConflictLines bl lines := by
  by_cases hbl : bl = []
  · subst hbl
    simp [filterConflictLines]
  · rw [filterConflictLines_eq_filter bl lines hbl,
      filterConflictLines_eq_filter bl _ hbl, List.filter_filter]
    simp

/-- Counterexample to C4: `filter_outdated_list` compares raw names —
`"Foo-Bar"` is not removed by the filter entry `"foo_bar"` even though
the two names have the same normalised form. -/
theorem filter_outdated_list_not_normalized :
    filter_outdated_list ["Foo-Bar"] [] ["foo_bar"] = (["Foo-Bar"], []) ∧
    normalize "Foo-Bar" = normalize "foo_bar" := by decide

/-- C4 (amended): the conflict-report blacklist filter of
`check_dependency_conflicts` compares normalised names on both sides
(blacklists that agree after normalisation filter identically, and
lines whose first tokens agree after normalisation are matched
identically), but the skip filter `filter_outdated_list` compares raw
names and does not treat `-`/`_`/case variants as equal. -/
theorem blacklist_filter_normalized :
    (∀ (bl1 bl2 lines : List String), bl1.map normalize = bl2.map normalize →
      filterConflictLines bl1 lines = filterConflictLines bl2 lines) ∧
    (∀ (bl : List String) (l1 l2 : String),
      normalize ((pySplitWs l1).getD 0 "") = normalize ((pySplitWs l2).getD 0 "") →
      lineMatchesBlacklist bl l1 = lineMatchesBlacklist bl l2) := by
  constructor
  · intro bl1 bl2 lines hmap
    have hmatch : ∀ line,
        lineMatchesBlacklist bl1 line = lineMatchesBlacklist bl2 line := by
      intro line
      unfold lineMatchesBlacklist
      dsimp only
      rw [any_normalize_map bl1 _, any_normalize_map bl2 _, hmap]
    by_cases hbl : bl1 = []
    · have hbl2 : bl2 = [] := by
        subst hbl
        simpa using hmap.symm
      subst hbl
      subst hbl2
      rfl
    · have hbl2 : bl2 ≠ [] := by
        intro hc
        subst hc
        simp at hmap
        exact hbl hmap
      rw [filterConflictLines_eq_filter bl1 lines hbl,
        filterConflictLines_eq_filter bl2 lines hbl2]
      exact List.filter_congr (fun x _ => by rw [hmatch x])
  · intro bl l1 l2 h
    unfold lineMatchesBlacklist
    rw [h]

/-- Witness for C4 (amended): blacklists `["Foo-Bar"]` and
`["foo_bar"]` filter a conflict report identically. -/
theorem blacklist_filter_normalized_witness :
    filterConflictLines ["Foo-Bar"]
        ["foobar 1.0 has requirement x>=1.0, but you have x 0.5."] =
      filterConflictLines ["foo_bar"]
        ["foobar 1.0 has requirement x>=1.0, but you have x 0.5."] :=
  blacklist_filter_normalized.1 ["Foo-Bar"] ["foo_bar"]
    ["foobar 1.0 has requirement x>=1.0, but you have x 0.5."] (by decide)

/-! ### C2, C6: the repeat-offender memory -/

theorem pyAdd_mem (s : List String) (x p : String) :
    p ∈ pyAdd s x ↔ p ∈ s ∨ p = x := by
  unfold pyAdd
  split
  · constructor
    · exact Or.inl
    · rintro (h | h)
      · exact h
      · subst h
        assumption
  · simp

theorem pyAdd_nodup (s : List String) (x : String) (h : s.Nodup) :
    (pyAdd s x).Nodup := by
  unfold pyAdd
  split
  · exact h
  · simp [List.nodup_append, h]
    assumption

theorem observeAux_fst_mem (pkgs : List String) :
    ∀ (memory acc : List String) (p : String),
      (p ∈ (observeAux memory pkgs acc).1 ↔ p ∈ memory ∨ p ∈ pkgs) := by
  induction pkgs with
  | nil => simp [observeAux]
  | cons q ps ih =>
    intro memory acc p
    by_cases hq : q ∈ memory
    · simp only [observeAux, hq, if_true]
      rw [ih memory (pyAdd acc q) p]
      constructor
      · rintro (h | h)
        · exact Or.inl h
        · exact Or.inr (List.mem_cons_of_mem q h)
      · rintro (h | h)
        · exact Or.inl h
        · rcases List.mem_cons.mp h with h' | h'
          · subst h'
            exact Or.inl hq
          · exact Or.inr h'
    · simp only [observeAux, hq, if_false]
      rw [ih (pyAdd memory q) acc p, pyAdd_mem]
      constructor
      · rintro ((h | h) | h)
        · exact Or.inl h
        · subst h
          exact Or.inr (List.mem_cons_self p ps)
        · exact Or.inr (List.mem_cons_of_mem q h)
      · rintro (h | h)
        · exact Or.inl (Or.inl h)
        · rcases List.mem_cons.mp h with h' | h'
          · exact Or.inl (Or.inr h')
          · exact Or.inr h'

theorem observeAux_snd_mem (pkgs : List String) :
    ∀ (memory acc : List String), pkgs.Nodup → ∀ (p : String),
      (p ∈ (observeAux memory pkgs acc).2 ↔
        p ∈ acc ∨ (p ∈ pkgs ∧ p ∈ memory)) := by
  induction pkgs with
  | nil => simp [observeAux]
  | cons q ps ih =>
    intro memory acc hnd p
    have hq_not : q ∉ ps := (List.nodup_cons.mp hnd).1
    have hps : ps.Nodup := (List.nodup_cons.mp hnd).2
    by_cases hq : q ∈ memory
    · simp only [observeAux, hq, if_true]
      rw [ih memory (pyAdd acc q) hps p, pyAdd_mem]
      constructor
      · rintro ((h | h) | h)
        · exact Or.inl h
        · subst h
          exact Or.inr ⟨List.mem_cons_self p ps, hq⟩
        · exact Or.inr ⟨List.mem_cons_of_mem q h.1, h.2⟩
      · rintro (h | h)
        · exact Or.inl (Or.inl h)
        · rcases List.mem_cons.mp h.1 with h' | h'
          · subst h'
            exact Or.inl (Or.inr rfl)
          · exact Or.inr ⟨h', h.2⟩
    · simp only [observeAux, hq, if_false]
      rw [ih (pyAdd memory q) acc hps p]
      constructor
      · rintro (h | h)
        · exact Or.inl h
        · rcases (pyAdd_mem memory q p).mp h.2 with h' | h'
          · exact Or.inr ⟨List.mem_cons_of_mem q h.1, h'⟩
          · subst h'
            exact absurd h.1 hq_not
      · rintro (h | h)
        · exact Or.inl h
        · rcases List.mem_cons.mp h.1 with h' | h'
          · subst h'
            exact absurd h.2 hq
          · exact Or.inr ⟨h', (pyAdd_mem memory q p).mpr (Or.inl h.2)⟩

theorem observeAux_snd_nodup (pkgs : List String) :
    ∀ (memory acc : List String), acc.Nodup →
      (observeAux memory pkgs acc).2.Nodup := by
  induction pkgs with
  | nil =>
    intro memory acc h
    simpa [observeAux] using h
  | cons q ps ih =>
    intro memory acc h
    by_cases hq : q ∈ memory
    · simp only [observeAux, hq, if_true]
      exact ih memory (pyAdd acc q) (pyAdd_nodup acc q h)
    · simp only [observeAux, hq, if_false]
      exact ih (pyAdd memory q) acc h

theorem observe_fst_mem (memory pkgs : List String) (p : String) :
    p ∈ (observe memory pkgs).1 ↔ p ∈ memory ∨ p ∈ pkgs :=
  observeAux_fst_mem pkgs memory [] p

theorem observe_snd_mem (memory pkgs : List String) (hnd : pkgs.Nodup)
    (p : String) :
    p ∈ (observe memory pkgs).2 ↔ p ∈ pkgs ∧ p ∈ memory := by
  rw [observe, observeAux_snd_mem pkgs memory [] hnd p]
  simp

theorem observe_snd_nodup (memory pkgs : List String) :
    (observe memory pkgs).2.Nodup :=
  observeAux_snd_nodup pkgs memory [] List.nodup_nil

/-- Counterexample to C2: in a run whose single checking round reports
the conflict line about `b`, `check_dependency_conflicts`'s memory
(starting empty) offers no candidate, yet `check_blacklist` — which
never consults the memory — already offers `b` after that one round. -/
theorem check_blacklist_single_round_candidate :
    (observe [] ["b"]).2 = [] ∧
    check_blacklist_candidates ["b"]
      ["a 1.0 has requirement b>=2.0, but you have b 1.0."] = ["b"] := by
  decide

/-- C2 (amended): only `check_dependency_conflicts` enforces the
two-round rule — each of its candidates is a package already present
in `conflict_dependency_memory` from an earlier round; `check_blacklist`
instead computes its candidate set from a single round's conflict lines
alone (an outdated package mentioned among a line's non-first tokens is
offered immediately, with no memory involved). -/
theorem blacklist_candidates_two_rounds :
    (∀ (memory pkgs : List String), pkgs.Nodup →
      (observe memory pkgs).2 ⊆ memory) ∧
    check_blacklist_candidates ["c"]
      ["a 1.0 has requirement c>=2.0, but you have c 1.0."] = ["c"] := by
  constructor
  · intro memory pkgs hnd p hp
    exact ((observe_snd_mem memory pkgs hnd p).mp hp).2
  · decide

/-- Witness for C2 (amended): a package already remembered from an
earlier round stays inside the memory when offered. -/
theorem blacklist_candidates_two_rounds_witness :
    (observe ["x"] ["x"]).2 ⊆ ["x"] :=
  blacklist_candidates_two_rounds.1 ["x"] ["x"] (by decide)

/-- C6: starting from empty memory, a package conflicting only in
round 1 is never a candidate in rounds 1-3; a package conflicting in
rounds 1 and 2 is in round 2's candidate set exactly once; a third
observation still yields exactly one copy in round 3's candidate set. -/
theorem observe_rounds_behavior (S1 S2 S3 : List String) (p : String)
    (h1 : S1.Nodup) (h2 : S2.Nodup) (h3 : S3.Nodup) :
    ((p ∈ S1 ∧ p ∉ S2 ∧ p ∉ S3) →
      (p ∉ (observe [] S1).2 ∧
       p ∉ (observe (observe [] S1).1 S2).2 ∧
       p ∉ (observe (observe (observe [] S1).1 S2).1 S3).2)) ∧
    ((p ∈ S1 ∧ p ∈ S2) →
      (observe (observe [] S1).1 S2).2.count p = 1) ∧
    ((p ∈ S1 ∧ p ∈ S2 ∧ p ∈ S3) →
      (observe (observe (observe [] S1).1 S2).1 S3).2.count p = 1) := by
  refine ⟨?_, ?_, ?_⟩
  · rintro ⟨hp1, hp2, hp3⟩
    refine ⟨?_, ?_, ?_⟩
    · intro hc
      have := ((observe_snd_mem [] S1 h1 p).mp hc).2
      simp at this
    · intro hc
      exact hp2 ((observe_snd_mem _ S2 h2 p).mp hc).1
    · intro hc
      exact hp3 ((observe_snd_mem _ S3 h3 p).mp hc).1
  · rintro ⟨hp1, hp2⟩
    have hmem : p ∈ (observe (observe [] S1).1 S2).2 :=
      (observe_snd_mem _ S2 h2 p).mpr
        ⟨hp2, (observe_fst_mem [] S1 p).mpr (Or.inr hp1)⟩
    exact List.count_eq_one_of_mem (observe_snd_nodup _ S2) hmem
  · rintro ⟨hp1, hp2, hp3⟩
    have hmem : p ∈ (observe (observe (observe [] S1).1 S2).1 S3).2 :=
      (observe_snd_mem _ S3 h3 p).mpr
        ⟨hp3, (observe_fst_mem _ S2 p).mpr
          (Or.inl ((observe_fst_mem [] S1 p).mpr (Or.inr hp1)))⟩
    exact List.count_eq_one_of_mem (observe_snd_nodup _ S3) hmem

/-- Witness for C6: with `x` conflicting in all three rounds, round 2's
candidate set holds `x` exactly once. -/
theorem observe_rounds_behavior_witness :
    (observe (observe [] ["x"]).1 ["x"]).2.count "x" = 1 :=
  (observe_rounds_behavior ["x"] ["x"] ["x"] "x"
    (by decide) (by decide) (by decide)).2.1 ⟨by decide, by decide⟩

/-! ### C8: the conflict history -/

/-- The number of stored occurrences of one history entry. -/
def countEntry (l : List HistEntry) (e : HistEntry) : Nat :=
  (l.filter (fun x => x = e)).length

theorem countEntry_eq_one_of_mem (l : List HistEntry) (e : HistEntry)
    (hnd : l.Nodup) (hmem : e ∈ l) : countEntry l e = 1 := by
  induction l with
  | nil => cases hmem
  | cons a rest ih =>
    have hnr : rest.Nodup := (List.nodup_cons.mp hnd).2
    have hna : a ∉ rest := (List.nodup_cons.mp hnd).1
    rcases List.mem_cons.mp hmem with h' | h'
    · subst h'
      have hnone : rest.filter (fun x => x = e) = [] := by
        rw [List.filter_eq_nil_iff]
        intro x hx
        simp only [decide_eq_true_eq]
        intro hxe
        rw [hxe] at hx
        exact hna hx
      unfold countEntry
      rw [List.filter_cons]
      simp [hnone]
    · have := ih hnr h'
      unfold countEntry at this ⊢
      rw [List.filter_cons]
      have hae : ¬(a = e) := fun hc => hna (hc ▸ h')
      simp only [hae, decide_False, Bool.false_eq_true, if_false]
      exact this

theorem update_conflict_history_cons (h : List HistEntry) (e : HistEntry)
    (rest : List HistEntry) :
    update_conflict_history h (e :: rest) =
      update_conflict_history (if e ∈ h then h else h ++ [e]) rest := rfl

theorem update_conflict_history_nodup (new : List HistEntry) :
    ∀ (h : List HistEntry), h.Nodup → (update_conflict_history h new).Nodup := by
  induction new with
  | nil =>
    intro h hnd
    simpa [update_conflict_history] using hnd
  | cons e rest ih =>
    intro h hnd
    rw [update_conflict_history_cons]
    apply ih
    split
    · exact hnd
    · simp [List.nodup_append, hnd]
      assumption

theorem update_conflict_history_prefix (new : List HistEntry) :
    ∀ (h : List HistEntry), ∃ t, update_conflict_history h new = h ++ t := by
  induction new with
  | nil =>
    intro h
    exact ⟨[], by simp [update_conflict_history]⟩
  | cons e rest ih =>
    intro h
    rw [update_conflict_history_cons]
    by_cases he : e ∈ h
    · rcases ih h with ⟨t, ht⟩
      exact ⟨t, by rw [if_pos he, ht]⟩
    · rcases ih (h ++ [e]) with ⟨t, ht⟩
      exact ⟨e :: t, by rw [if_neg he, ht, List.append_assoc]; rfl⟩

theorem update_conflict_history_mem (new : List HistEntry) :
    ∀ (h : List HistEntry) (e : HistEntry), e ∈ new →
      e ∈ update_conflict_history h new := by
  induction new with
  | nil =>
    intro h e he
    cases he
  | cons q rest ih =>
    intro h e he
    rw [update_conflict_history_cons]
    rcases List.mem_cons.mp he with h' | h'
    · subst h'
      rcases update_conflict_history_prefix rest
        (if e ∈ h then h else h ++ [e]) with ⟨t, ht⟩
      rw [ht]
      apply List.mem_append_left
      split
      · assumption
      · simp
    · exact ih _ e h'

/-- C8: across any number of checking rounds, the conflict history
stays duplicate-free, is append-only (each round's result extends the
previous history, never removing or modifying entries), and a triple
recorded in any round is stored exactly once. -/
theorem conflict_history_dedup_append_only (h0 : List HistEntry)
    (rounds : List (List HistEntry)) (hnd : h0.Nodup) :
    (rounds.foldl update_conflict_history h0).Nodup ∧
    (∃ t, rounds.foldl update_conflict_history h0 = h0 ++ t) ∧
    (∀ e : HistEntry, (∃ r ∈ rounds, e ∈ r) →
      countEntry (rounds.foldl update_conflict_history h0) e = 1) := by
  induction rounds generalizing h0 with
  | nil =>
    refine ⟨hnd, ⟨[], by simp⟩, ?_⟩
    rintro e ⟨r, hr, -⟩
    cases hr
  | cons r rest ih =>
    have hnd1 := update_conflict_history_nodup r h0 hnd
    obtain ⟨hA, ⟨t, ht⟩, hC⟩ := ih (update_conflict_history h0 r) hnd1
    refine ⟨hA, ?_, ?_⟩
    · rcases update_conflict_history_prefix r h0 with ⟨t0, ht0⟩
      exact ⟨t0 ++ t, by
        simp only [List.foldl_cons]
        rw [ht, ht0, List.append_assoc]⟩
    · rintro e ⟨rr, hrr, her⟩
      rcases List.mem_cons.mp hrr with h' | h'
      · subst h'
        have hmem : e ∈ (rr :: rest).foldl update_conflict_history h0 := by
          simp only [List.foldl_cons]
          rw [ht]
          exact List.mem_append_left t
            (update_conflict_history_mem rr h0 e her)
        exact countEntry_eq_one_of_mem _ e hA hmem
      · exact hC e ⟨rr, h', her⟩

/-- Witness for C8: recording the same triple in two successive rounds
stores it exactly once. -/
theorem conflict_history_dedup_append_only_witness :
    countEntry
      ([[("a", "b", PyVal.vStr "1.0")], [("a", "b", PyVal.vStr "1.0")]].foldl
        update_conflict_history []) ("a", "b", PyVal.vStr "1.0") = 1 :=
  (conflict_history_dedup_append_only []
    [[("a", "b", PyVal.vStr "1.0")], [("a", "b", PyVal.vStr "1.0")]]
    (by decide)).2.2 ("a", "b", PyVal.vStr "1.0")
    ⟨[("a", "b", PyVal.vStr "1.0")], by decide, by decide⟩

/-! ### C9: config loading -/

/-- C9: `_load_config` returns empty blacklist and empty
specific-versions in both failure modes — an absent file is rewritten
with the default config `{"blacklist": [], "specific_versions": {}}`
and those defaults returned, malformed JSON yields `([], {})` — and a
missing key in a valid config falls back to the same default. -/
theorem load_config_defaults :
    _load_config ConfigState.absent =
      (([], []), ConfigState.valid (some []) (some [])) ∧
    (_load_config ConfigState.malformed).1 = ([], []) ∧
    (∀ sv, (_load_config (ConfigState.valid none sv)).1.1 = []) ∧
    (∀ bl, (_load_config (ConfigState.valid bl none)).1.2 = []) :=
  ⟨rfl, rfl, fun _ => rfl, fun _ => rfl⟩

/-! ### C10: update_packages bookkeeping -/

theorem updateLoop_count (sv : List (String × String))
    (installed : String → Option String) (pip : String → Bool × String)
    (l : List String) (p : String) :
    (updateLoop sv installed pip l).1.count p +
      ((updateLoop sv installed pip l).2.1.map Prod.fst).count p =
      l.count p := by
  induction l with
  | nil => simp [updateLoop]
  | cons q rest ih =>
    rcases hd : pyDictGet sv q with - | tv
    · rcases hok : pip q with ⟨ok, err⟩
      cases ok
      · simp only [updateLoop, hd, hok]
        rw [if_neg (by simp)]
        simp only [List.map_cons, List.count_cons]
        omega
      · simp only [updateLoop, hd, hok]
        rw [if_pos (by simp)]
        simp only [List.count_cons]
        omega
    · by_cases hcv : installed q = some tv
      · simp only [updateLoop, hd]
        rw [if_pos hcv]
        simp only [List.count_cons]
        omega
      · rcases hok : pip (q ++ "==" ++ tv) with ⟨ok, err⟩
        cases ok
        · simp only [updateLoop, hd, hok]
          rw [if_neg hcv, if_neg (by simp)]
          simp only [List.map_cons, List.count_cons]
          omega
        · simp only [updateLoop, hd, hok]
          rw [if_neg hcv, if_pos (by simp)]
          simp only [List.count_cons]
          omega

theorem updateLoop_skip_subset (sv : List (String × String))
    (installed : String → Option String) (pip : String → Bool × String)
    (l : List String) :
    ∀ p ∈ (updateLoop sv installed pip l).2.2,
      p ∈ (updateLoop sv installed pip l).1 := by
  induction l with
  | nil => simp [updateLoop]
  | cons q rest ih =>
    intro p hp
    rcases hd : pyDictGet sv q with - | tv
    · rcases hok : pip q with ⟨ok, err⟩
      cases ok
      · simp only [updateLoop, hd, hok, if_false] at hp ⊢
        exact ih p hp
      · simp only [updateLoop, hd, hok, if_true] at hp ⊢
        exact List.mem_cons_of_mem q (ih p hp)
    · by_cases hcv : installed q = some tv
      · simp only [updateLoop, hd, hcv, if_pos] at hp ⊢
        rcases List.mem_cons.mp hp with h' | h'
        · subst h'
          exact List.mem_cons_self p _
        · exact List.mem_cons_of_mem q (ih p h')
      · rcases hok : pip (q ++ "==" ++ tv) with ⟨ok, err⟩
        cases ok
        · simp only [updateLoop, hd, hok, if_neg hcv, if_false] at hp ⊢
          exact ih p hp
        · simp only [updateLoop, hd, hok, if_neg hcv, if_true] at hp ⊢
          exact List.mem_cons_of_mem q (ih p hp)

/-- C10: for a duplicate-free input, every skipped package is also
counted successful, and each input package lands in exactly one of
`successful_updates` or `failed_updates` (counting multiplicity: the
name occurs exactly once across the two lists). -/
theorem update_packages_accounting (packages : List String)
    (sv : List (String × String)) (installed : String → Option String)
    (pip : String → Bool × String) (hnd : packages.Nodup) :
    (∀ p ∈ (update_packages packages sv installed pip).2.2,
      p ∈ (update_packages packages sv installed pip).1) ∧
    (∀ p ∈ packages,
      (update_packages packages sv installed pip).1.count p +
        ((update_packages packages sv installed pip).2.1.map Prod.fst).count p
        = 1) := by
  constructor
  · exact updateLoop_skip_subset sv installed pip (pySorted packages)
  · intro p hp
    unfold update_packages
    rw [updateLoop_count]
    have hperm : List.Perm (pySorted packages) packages :=
      List.perm_insertionSort _ packages
    rw [hperm.count_eq]
    exact List.count_eq_one_of_mem hnd hp

/-- Witness for C10: two packages, one pinned and already at its pinned
version (hence skipped and successful), each accounted exactly once. -/
theorem update_packages_accounting_witness :
    (update_packages ["b", "a"] [("a", "1.0")]
        (fun q => if q = "a" then some "1.0" else none)
        (fun _ => (true, ""))).1.count "a" +
      ((update_packages ["b", "a"] [("a", "1.0")]
        (fun q => if q = "a" then some "1.0" else none)
        (fun _ => (true, ""))).2.1.map Prod.fst).count "a" = 1 :=
  (update_packages_accounting ["b", "a"] [("a", "1.0")]
    (fun q => if q = "a" then some "1.0" else none)
    (fun _ => (true, "")) (by decide)).2 "a" (by decide)

end PyUp
